import Mathlib

/-!
Verification development for the DROP preprocessing pipeline of `setup_drop.py`
(answer-derivation search: number extraction, span matching, add/sub expression
enumeration, count matching, and the per-file orchestration).

Strings are modelled as Lean `String`/`List Char`; Python string primitives
(`lower`, `strip`, `split`, `replace`, `find`, `int`) are shallowly embedded as
the functions `pyLower`, `pyStrip`, `pySplitWs`, `pyReplace`, `pyFind`, `pyInt`
below.  A Python function that can raise is modelled as `Option`-valued, with
`none` standing for the raised exception.
-/

set_option maxRecDepth 4000

/-- Python `str.lower()` (ASCII case mapping, which covers every string this
pipeline manipulates). -/
def pyLower (s : String) : String :=
  (s.toList.map Char.toLower).asString

/-- Python `str.strip(chars)`: remove leading and trailing characters that
belong to `chars`. -/
def pyStrip (chars : List Char) (s : String) : String :=
  (((s.toList.dropWhile (fun c => chars.contains c)).reverse.dropWhile
      (fun c => chars.contains c)).reverse).asString

/-- Helper for Python `str.split()` (no separator argument): accumulate the
current word in reverse in `acc`, splitting on whitespace and discarding empty
pieces. -/
def pySplitWsAux : List Char → List Char → List (List Char)
  | [], acc => if acc = [] then [] else [acc.reverse]
  | c :: rest, acc =>
    if c.isWhitespace then
      if acc = [] then pySplitWsAux rest []
      else acc.reverse :: pySplitWsAux rest []
    else pySplitWsAux rest (c :: acc)

/-- Python `str.split()` with no argument: split on runs of whitespace,
discarding empty strings. -/
def pySplitWs (s : String) : List String :=
  (pySplitWsAux s.toList []).map List.asString

/-- Helper for Python `str.replace(pat, rep)` (all non-overlapping occurrences,
scanned left to right).  `fuel` is initialised with the length of the string,
which bounds the recursion; every replacement in this repository uses a
non-empty pattern, so the `0` fuel case is never reached. -/
def pyReplaceAux (pat rep : List Char) : Nat → List Char → List Char
  | _, [] => []
  | 0, l => l
  | fuel + 1, c :: rest =>
    if !pat.isEmpty && pat.isPrefixOf (c :: rest) then
      rep ++ pyReplaceAux pat rep fuel (rest.drop (pat.length - 1))
    else
      c :: pyReplaceAux pat rep fuel rest

/-- Python `str.replace(pat, rep)` on character lists. -/
def pyReplace (s pat rep : List Char) : List Char :=
  pyReplaceAux pat rep s.length s

/-- Python `str.find(sub, start)`: the least index `i ≥ start` at which `sub`
occurs in `text`, `none` when Python would return `-1`. -/
def pyFind (text sub : List Char) (start : Nat) : Option Nat :=
  (List.range (text.length + 1)).find?
    (fun i => decide (start ≤ i) && sub.isPrefixOf (text.drop i))

/-- Decimal value of a list of digit characters (most significant first). -/
def decimalDigits (ds : List Char) : Nat :=
  ds.foldl (fun acc c => acc * 10 + (c.toNat - 48)) 0

/-- Character-list worker for the model of the Python builtin `int(s)`: an
optional sign followed by decimal digits succeeds, everything else fails. -/
def pyIntAux : List Char → Option Int
  | [] => none
  | c :: rest =>
    if c = '-' then
      if rest ≠ [] ∧ rest.all Char.isDigit then some (-(decimalDigits rest : Int))
      else none
    else if c = '+' then
      if rest ≠ [] ∧ rest.all Char.isDigit then some ((decimalDigits rest : Int))
      else none
    else
      if (c :: rest).all Char.isDigit then some ((decimalDigits (c :: rest) : Int))
      else none

/-- Model of the Python builtin `int(s)` restricted to the shapes that occur in
this pipeline: an optional sign followed by decimal digits succeeds, everything
else fails.  (Python additionally tolerates surrounding whitespace and
underscore separators; no caller in `setup_drop.py` relies on those.) -/
def pyInt (s : String) : Option Int :=
  pyIntAux s.toList

/-- `max_count` from `setup_drop.py`. -/
def max_count : Nat := 100000

/-- `WORD_NUMBER_MAP` from `setup_drop.py`, as an association list in source
order. -/
def WORD_NUMBER_MAP : List (String × Int) :=
  [("zero", 0), ("one", 1), ("two", 2), ("three", 3), ("four", 4),
   ("five", 5), ("six", 6), ("seven", 7), ("eight", 8), ("nine", 9),
   ("ten", 10), ("eleven", 11), ("twelve", 12), ("thirteen", 13),
   ("fourteen", 14), ("fifteen", 15), ("sixteen", 16), ("seventeen", 17),
   ("eighteen", 18), ("nineteen", 19)]

/-- `IGNORED_TOKENS` from `setup_drop.py`. -/
def IGNORED_TOKENS : List String := ["a", "an", "the"]

/-- `STRIPPED_CHARACTERS` from `setup_drop.py`: Python `string.punctuation`
(ASCII codepoints 33-47, 58-64, 91-96, 123-126) followed by the extra
characters `‘` (8216), `’` (8217), `´` (180), the backquote (96) and the
underscore (95).  Written via codepoints. -/
def STRIPPED_CHARACTERS : List Char :=
  ([33, 34, 35, 36, 37, 38, 39, 40, 41, 42, 43, 44, 45, 46, 47,
    58, 59, 60, 61, 62, 63, 64, 91, 92, 93, 94, 95, 96,
    123, 124, 125, 126] ++ [8216, 8217, 180, 96, 95]).map Char.ofNat

/-- The answer-annotation record consumed by
`extract_answer_info_from_annotation` in `setup_drop.py`: a `spans` list, a
`number` string and a date dict with `month`/`day`/`year` components.  Python
truthiness of a list/string is non-emptiness. -/
structure AnswerAnn where
  spans : List String
  number : String
  date_month : String
  date_day : String
  date_year : String
deriving DecidableEq, Repr

/-- `extract_answer_info_from_annotation` from `setup_drop.py` (shortened
name).  Returns the answer type (`none` models Python `None`) and the answer
texts; the `answer_content = answer_annotation[answer_type]` indirection of the
source is collapsed into the per-type branches. -/
def extract_answer_info (ann : AnswerAnn) : Option String × List String :=
  let answerType : Option String :=
    if ann.spans ≠ [] then some "spans"
    else if ann.number ≠ "" then some "number"
    else if ann.date_month ≠ "" ∨ ann.date_day ≠ "" ∨ ann.date_year ≠ "" then
      some "date"
    else none
  let answerTexts : List String :=
    match answerType with
    | none => []
    | some t =>
      if t = "spans" then ann.spans
      else if t = "date" then
        [ann.date_month, ann.date_day, ann.date_year].filter (fun s => s != "")
      else [ann.number]
  (answerType, answerTexts)

/-- `convert_word_to_number` from `setup_drop.py` in its strict mode
(`try_to_include_more_numbers = False`, the only mode `process_file` uses):
remove every comma, look the result up in `WORD_NUMBER_MAP`, otherwise try an
integer parse, and return `none` on failure. -/
def convert_word_to_number (word : String) : Option Int :=
  let no_comma_word := (pyReplace word.toList [','] []).asString
  match WORD_NUMBER_MAP.lookup no_comma_word with
  | some n => some n
  | none => pyInt no_comma_word

/-- `itertools.product((-1, 1), repeat = k)`: every sign vector of length `k`,
first coordinate varying slowest. -/
def possibleSigns : Nat → List (List Int)
  | 0 => [[]]
  | k + 1 => ([-1, 1] : List Int).flatMap (fun s => (possibleSigns k).map (fun rest => s :: rest))

/-- `itertools.combinations(xs, k)`: every length-`k` combination of `xs`, in
the original order, enumerated lexicographically by position. -/
def combinations {α : Type} : Nat → List α → List (List α)
  | 0, _ => [[]]
  | _ + 1, [] => []
  | k + 1, x :: xs => ((combinations k xs).map (fun c => x :: c)) ++ combinations (k + 1) xs

/-- The `eval_value` computed inside `find_valid_add_sub_expressions`:
`sum(sign * value for sign, value in zip(signs, values))` where `values` are
the second components of the chosen indexed combination. -/
def addSubEval (combo : List (Nat × Int)) (signs : List Int) : Int :=
  ((signs.zip (combo.map Prod.snd)).map (fun p => p.1 * p.2)).sum

/-- The `labels_for_numbers` vector built inside
`find_valid_add_sub_expressions`: start from `[0] * len(numbers)` and set each
chosen index to `1` for sign `+1` and `2` for sign `-1`. -/
def addSubLabels (numbersLen : Nat) (combo : List (Nat × Int)) (signs : List Int) : List Nat :=
  ((combo.map Prod.fst).zip signs).foldl
    (fun acc q => acc.set q.1 (if q.2 = 1 then 1 else 2))
    (List.replicate numbersLen 0)

/-- `find_valid_add_sub_expressions` from `setup_drop.py`: for every term count
`k` in `range(2, maxNumbers + 1)`, every combination of `k` indexed numbers and
every sign vector in `{-1, 1}^k`, emit the label vector whenever the signed sum
hits a target. -/
def find_valid_add_sub_expressions
    (numbers : List Int) (targets : List Int) (maxNumbers : Nat) : List (List Nat) :=
  (List.range' 2 (maxNumbers + 1 - 2)).flatMap (fun k =>
    (combinations k numbers.enum).flatMap (fun combo =>
      (possibleSigns k).flatMap (fun signs =>
        if addSubEval combo signs ∈ targets then
          [addSubLabels numbers.length combo signs]
        else [])))

/-- `find_valid_counts` helper: the `enumerate` loop carrying the running
index. -/
def findValidCountsAux (targets : List Int) : Nat → List Int → List Nat
  | _, [] => []
  | idx, n :: rest =>
    if n ∈ targets then idx :: findValidCountsAux targets (idx + 1) rest
    else findValidCountsAux targets (idx + 1) rest

/-- `find_valid_counts` from `setup_drop.py`: the indices whose entry is a
member of `targets`. -/
def find_valid_counts (count_numbers : List Int) (targets : List Int) : List Nat :=
  findValidCountsAux targets 0 count_numbers

/-- The `word_positions` dictionary of `find_valid_spans`: the ordered list of
indices at which the normalized token `tok` occurs in the normalized passage.
A token that never occurs gets the empty list, which also models the source's
`answer_tokens[0] not in word_positions → continue` guard. -/
def wordPositions (normalized : List String) (tok : String) : List Nat :=
  (normalized.enum.filter (fun p => p.2 == tok)).map Prod.fst

/-- The inner `while` loop of `find_valid_spans`.  The source walks an index
`span_end` with guard `span_end + 1 < len(normalized)` and reads
`normalized[span_end + 1]`; here the not-yet-visited suffix
`normalized.drop (spanEnd + 1)` is passed explicitly, so the guard is the
suffix being non-empty and the read is its head.  Returns the final
`(answer_index, span_end)` pair. -/
def matchLoopAux (answerTokens : List String) : Nat → Nat → List String → Nat × Nat
  | answerIndex, spanEnd, [] => (answerIndex, spanEnd)
  | answerIndex, spanEnd, token :: rest =>
    if answerIndex < answerTokens.length then
      if pyStrip STRIPPED_CHARACTERS (answerTokens.getD answerIndex "") = token then
        matchLoopAux answerTokens (answerIndex + 1) (spanEnd + 1) rest
      else if token ∈ IGNORED_TOKENS then
        matchLoopAux answerTokens answerIndex (spanEnd + 1) rest
      else (answerIndex, spanEnd)
    else (answerIndex, spanEnd)

/-- The `for span_start in word_positions[answer_tokens[0]]` loop of
`find_valid_spans`, for one (non-empty) normalized answer token list: a span is
recorded exactly when the whole answer token sequence was consumed. -/
def spansForAnswer (normalized : List String) (answerTokens : List String) : List (Nat × Nat) :=
  (wordPositions normalized (answerTokens.headD "")).filterMap (fun spanStart =>
    let r := matchLoopAux answerTokens 1 spanStart (normalized.drop (spanStart + 1))
    if r.1 = answerTokens.length then some (spanStart, r.2) else none)

/-- The `for answer_text in answer_texts` loop of `find_valid_spans` over the
already-normalized passage.  An answer text whose normalization yields no
tokens makes the source raise `IndexError` at `answer_tokens[0]`; that raise is
modelled as `none`. -/
def findValidSpansCore (normalized : List String) : List String → Option (List (Nat × Nat))
  | [] => some []
  | t :: rest =>
    let answerTokens := pySplitWs (pyStrip STRIPPED_CHARACTERS (pyLower t))
    if answerTokens = [] then none
    else (findValidSpansCore normalized rest).map
      (fun tailSpans => spansForAnswer normalized answerTokens ++ tailSpans)

/-- `find_valid_spans` from `setup_drop.py`: normalize the passage tokens
(lower-case then strip `STRIPPED_CHARACTERS`), then match every answer text;
`none` models a raised exception. -/
def find_valid_spans (passage_tokens : List String) (answer_texts : List String) :
    Option (List (Nat × Nat)) :=
  findValidSpansCore
    (passage_tokens.map (fun t => pyStrip STRIPPED_CHARACTERS (pyLower t)))
    answer_texts

/-- Helper for `convert_idx`: the loop carrying the running character offset
`current`. -/
def convertIdxAux (text : List Char) : Nat → List (List Char) → Option (List (Nat × Nat))
  | _, [] => some []
  | current, token :: rest =>
    match pyFind text token current with
    | none => none
    | some i =>
      (convertIdxAux text (i + token.length) rest).map
        (fun spans => (i, i + token.length) :: spans)

/-- `convert_idx` from `setup_drop.py`: character-offset spans of the given
tokens inside `text`; a token that cannot be located makes the source raise,
modelled as `none`. -/
def convert_idx (text : List Char) (tokens : List (List Char)) : Option (List (Nat × Nat)) :=
  convertIdxAux text 0 tokens

/-- The `passage.replace("''", '" ').replace("``", '" ')` quote normalization
applied by `process_file` to passages and questions.  The apostrophe and the
backquote are written via their codepoints (39 and 96). -/
def normalizeQuotes (s : String) : String :=
  (pyReplace
    (pyReplace s.toList [Char.ofNat 39, Char.ofNat 39] ['"', ' '])
    [Char.ofNat 96, Char.ofNat 96] ['"', ' ']).asString

/-- One question/answer pair of an article, as read from the input file. -/
structure QaPair where
  question : String
  answer : AnswerAnn
deriving DecidableEq, Repr

/-- One article of the input file: a passage and its question/answer pairs.
(The tokenizer is external; `process_file` receives it as a parameter.) -/
structure Article where
  passage : String
  qa_pairs : List QaPair
deriving DecidableEq, Repr

/-- The `answer_info` record assembled by `process_file` (the
`signs_for_add_sub_expressions` entry is commented out in the source, so the
computed sign labelings are discarded and do not appear here). -/
structure AnswerInfo where
  answer_texts : List String
  answer_passage_spans : List (Nat × Nat)
  counts : List Nat
deriving DecidableEq, Repr

/-- The per-question `example` record assembled by `process_file`. -/
structure DropExample where
  context_tokens : List String
  context_chars : List (List Char)
  ques_tokens : List String
  ques_chars : List (List Char)
  number_indices : List Nat
  answer_info : AnswerInfo
deriving DecidableEq, Repr

/-- The `target_numbers` loop of `process_file`: strict-mode number extraction
over the answer texts, keeping the successes. -/
def targetNumbersOf (answer_texts : List String) : List Int :=
  answer_texts.filterMap convert_word_to_number

/-- The `numbers_in_passage` / `number_indices` loop of `process_file`: each
passage token position paired with its strict-mode numeric value, when one
exists. -/
def passageNumbersOf (passage_tokens : List String) : List (Nat × Int) :=
  passage_tokens.enum.filterMap
    (fun p => (convert_word_to_number p.2).map (fun n => (p.1, n)))

/-- The `valid_signs_for_add_sub_expressions` variable of `process_file`: the
enumerator runs only when the answer type is `"number"` or `"date"`.  (The
source computes this value and then discards it, the corresponding
`answer_info` entry being commented out.) -/
def validSignsOf (answerType : Option String)
    (numbers_in_passage target_numbers : List Int) : List (List Nat) :=
  if answerType = some "number" ∨ answerType = some "date" then
    find_valid_add_sub_expressions numbers_in_passage target_numbers 2
  else []

/-- `list(range(max_count))`, the fixed count candidate range of
`process_file`. -/
def numbersForCount : List Int := (List.range max_count).map Int.ofNat

/-- The `valid_counts` variable of `process_file`: the count matcher runs over
`range(max_count)` only when the answer type is `"number"`. -/
def validCountsOf (answerType : Option String) (target_numbers : List Int) : List Nat :=
  if answerType = some "number" then find_valid_counts numbersForCount target_numbers
  else []

/-- The body of the `for qa_pair in article["qa_pairs"]` loop of
`process_file`, producing one `DropExample`.  The word/char counter updates are
external mutable state with no bearing on the produced record and are not
modelled.  `none` models an exception raised inside the body (only
`find_valid_spans` can raise here). -/
def processQaPair (tokenize : String → List String) (passage_tokens : List String)
    (qa : QaPair) : Option DropExample :=
  let ques := normalizeQuotes qa.question
  let ques_tokens := tokenize ques
  let info := extract_answer_info qa.answer
  let tokenized_answer_texts :=
    info.2.map (fun t => String.intercalate " " (tokenize t))
  let nums := passageNumbersOf passage_tokens
  match (if tokenized_answer_texts = [] then some []
         else find_valid_spans passage_tokens tokenized_answer_texts) with
  | none => none
  | some valid_passage_spans =>
    let target_numbers := targetNumbersOf info.2
    let valid_counts := validCountsOf info.1 target_numbers
    some ⟨passage_tokens, passage_tokens.map String.toList,
          ques_tokens, ques_tokens.map String.toList,
          nums.map Prod.fst,
          ⟨info.2, valid_passage_spans, valid_counts⟩⟩

/-- The `for qa_pair in ...` loop of `process_file` over one article's
question/answer pairs; any raise propagates. -/
def processQaList (tokenize : String → List String) (passage_tokens : List String) :
    List QaPair → Option (List DropExample)
  | [] => some []
  | qa :: rest =>
    match processQaPair tokenize passage_tokens qa with
    | none => none
    | some ex => (processQaList tokenize passage_tokens rest).map (fun l => ex :: l)

/-- The body of the `for article in source.values()` loop of `process_file`:
quote-normalize the passage, tokenize it, run `convert_idx` (whose raise
propagates — there is no `try`/`except` in the source), then process every
question/answer pair. -/
def processArticle (tokenize : String → List String) (article : Article) :
    Option (List DropExample) :=
  let passage := normalizeQuotes article.passage
  let passage_tokens := tokenize passage
  match convert_idx passage.toList (passage_tokens.map String.toList) with
  | none => none
  | some _ => processQaList tokenize passage_tokens article.qa_pairs

/-- `process_file` from `setup_drop.py`, over the article list of the input
file.  An exception raised while processing any article propagates and aborts
the whole call (`none`); on success the examples of all articles are returned
in order. -/
def process_file (tokenize : String → List String) : List Article → Option (List DropExample)
  | [] => some []
  | a :: rest =>
    match processArticle tokenize a with
    | none => none
    | some exs => (process_file tokenize rest).map (fun l => exs ++ l)

/-- Spec-side: the contribution of one label/number pair to the signed sum of a
sign labeling: label `1` adds the number, label `2` subtracts it, any other
label excludes it. -/
def contrib (lab : Nat) (n : Int) : Int :=
  if lab = 1 then n else if lab = 2 then -n else 0

/-- Spec-side: the signed sum described by a label vector over the number
list, as the SignLabeling invariant of the spec states it. -/
def signedSum (numbers : List Int) (labels : List Nat) : Int :=
  ((numbers.zip labels).map (fun p => contrib p.2 p.1)).sum

/-- Modelled from the spec wording of the Number Extractor (strict mode),
which says the algorithm "strips a trailing comma": remove one trailing comma
only, then the word map, then the integer parse.  Used to compare the spec's
description against `convert_word_to_number`, which removes every comma. -/
def convertWordToNumberSpec (word : String) : Option Int :=
  let stripped :=
    if word.toList.getLast? = some ',' then word.toList.dropLast.asString else word
  match WORD_NUMBER_MAP.lookup stripped with
  | some n => some n
  | none => pyInt stripped

/-- The ASCII letters, formalizing the claim's notion of an "alphabetic"
string (codepoints 65-90 and 97-122). -/
def asciiLetters : List Char :=
  ((List.range 26).map (fun i => Char.ofNat (65 + i))) ++
    ((List.range 26).map (fun i => Char.ofNat (97 + i)))

/-! ### Helper lemmas -/

theorem mem_findValidCountsAux (targets : List Int) :
    ∀ (cs : List Int) (idx i : Nat),
      i ∈ findValidCountsAux targets idx cs ↔
        ∃ j, j < cs.length ∧ i = idx + j ∧ cs.getD j 0 ∈ targets := by
  intro cs
  induction cs with
  | nil => intro idx i; simp [findValidCountsAux]
  | cons n rest ih =>
    intro idx i
    by_cases hn : n ∈ targets
    · simp only [findValidCountsAux, if_pos hn, List.mem_cons, ih]
      constructor
      · rintro (rfl | ⟨j, hj, rfl, hmem⟩)
        · exact ⟨0, by simp, by omega, by simpa using hn⟩
        · exact ⟨j + 1, by simpa using hj, by omega, by simpa using hmem⟩
      · rintro ⟨j, hj, rfl, hmem⟩
        cases j with
        | zero => left; omega
        | succ j => right; exact ⟨j, by simpa using hj, by omega, by simpa using hmem⟩
    · simp only [findValidCountsAux, if_neg hn, ih]
      constructor
      · rintro ⟨j, hj, rfl, hmem⟩
        exact ⟨j + 1, by simpa using hj, by omega, by simpa using hmem⟩
      · rintro ⟨j, hj, rfl, hmem⟩
        cases j with
        | zero => simp at hmem; exact absurd hmem hn
        | succ j => exact ⟨j, by simpa using hj, by omega, by simpa using hmem⟩

theorem findValidCountsAux_range' :
    ∀ (n s : Nat) (t : Int),
      findValidCountsAux [t] s ((List.range' s n).map Int.ofNat)
        = if (s : Int) ≤ t ∧ t < (s : Int) + (n : Int) then [t.toNat] else [] := by
  intro n
  induction n with
  | zero =>
    intro s t
    rw [if_neg]
    · simp [findValidCountsAux]
    · omega
  | succ n ih =>
    intro s t
    have hrange : List.range' s (n + 1) = s :: List.range' (s + 1) n := by
      simp [List.range'_succ]
    rw [hrange]
    simp only [List.map_cons, findValidCountsAux, List.mem_singleton, Int.ofNat_eq_natCast]
    by_cases ht : ((s : Int)) = t
    · rw [if_pos ht, ih]
      rw [if_neg (by push_cast; omega), if_pos (by push_cast; omega)]
      have h2 : t.toNat = s := by omega
      rw [h2]
    · rw [if_neg ht, ih]
      by_cases hc : (s : Int) ≤ t ∧ t < (s : Int) + ((n : Int) + 1)
      · rw [if_pos (by push_cast; omega), if_pos (by push_cast; omega)]
      · rw [if_neg (by push_cast; omega), if_neg (by push_cast; omega)]

theorem mem_enumFrom_getD {α : Type} (d : α) :
    ∀ (l : List α) (n : Nat) (p : Nat × α), p ∈ List.enumFrom n l →
      ∃ j, j < l.length ∧ p.1 = n + j ∧ l.getD j d = p.2 := by
  intro l
  induction l with
  | nil => intro n p h; simp [List.enumFrom] at h
  | cons x xs ih =>
    intro n p h
    simp only [List.enumFrom, List.mem_cons] at h
    rcases h with rfl | h
    · exact ⟨0, by simp, by simp, by simp⟩
    · obtain ⟨j, hj, hfst, hget⟩ := ih (n + 1) p h
      exact ⟨j + 1, by simpa using hj, by omega, by simpa using hget⟩

theorem mem_enum_getD {α : Type} (d : α) (l : List α) (p : Nat × α) (h : p ∈ l.enum) :
    p.1 < l.length ∧ l.getD p.1 d = p.2 := by
  obtain ⟨j, hj, hfst, hget⟩ := mem_enumFrom_getD d l 0 p h
  constructor
  · omega
  · rw [show p.1 = j by omega]; exact hget

theorem enumFrom_map_fst {α : Type} :
    ∀ (l : List α) (n : Nat), (List.enumFrom n l).map Prod.fst = List.range' n l.length := by
  intro l
  induction l with
  | nil => intro n; simp
  | cons x xs ih => intro n; simp [List.enumFrom, List.range'_succ, ih]

theorem matchLoopAux_spanEnd_bounds (answerTokens : List String) :
    ∀ (suffix : List String) (ai se : Nat),
      se ≤ (matchLoopAux answerTokens ai se suffix).2 ∧
      (matchLoopAux answerTokens ai se suffix).2 ≤ se + suffix.length := by
  intro suffix
  induction suffix with
  | nil => intro ai se; simp [matchLoopAux]
  | cons token rest ih =>
    intro ai se
    simp only [matchLoopAux, List.length_cons]
    split
    · split
      · have h := ih (ai + 1) (se + 1); exact ⟨by omega, by omega⟩
      · split
        · have h := ih ai (se + 1); exact ⟨by omega, by omega⟩
        · exact ⟨by omega, by omega⟩
    · exact ⟨by omega, by omega⟩

theorem mem_wordPositions_lt (normalized : List String) (tok : String) (i : Nat)
    (h : i ∈ wordPositions normalized tok) : i < normalized.length := by
  simp only [wordPositions, List.mem_map, List.mem_filter] at h
  obtain ⟨p, ⟨hp, _⟩, rfl⟩ := h
  exact (mem_enum_getD "" normalized p hp).1

theorem spansForAnswer_bounds (normalized answerTokens : List String) (p : Nat × Nat)
    (h : p ∈ spansForAnswer normalized answerTokens) :
    p.1 ≤ p.2 ∧ p.2 < normalized.length := by
  simp only [spansForAnswer, List.mem_filterMap] at h
  obtain ⟨spanStart, hmem, hsome⟩ := h
  have hlt := mem_wordPositions_lt normalized (answerTokens.headD "") spanStart hmem
  have hbounds := matchLoopAux_spanEnd_bounds answerTokens
    (normalized.drop (spanStart + 1)) 1 spanStart
  rw [List.length_drop] at hbounds
  split at hsome
  · cases hsome
    exact ⟨by omega, by omega⟩
  · cases hsome

theorem findValidSpansCore_bounds (normalized : List String) :
    ∀ (ats : List String) (spans : List (Nat × Nat)),
      findValidSpansCore normalized ats = some spans →
      ∀ p ∈ spans, p.1 ≤ p.2 ∧ p.2 < normalized.length := by
  intro ats
  induction ats with
  | nil =>
    intro spans h p hp
    simp only [findValidSpansCore, Option.some.injEq] at h
    subst h; simp at hp
  | cons t rest ih =>
    intro spans h p hp
    simp only [findValidSpansCore] at h
    split at h
    · cases h
    · rw [Option.map_eq_some'] at h
      obtain ⟨tailSpans, htail, rfl⟩ := h
      rcases List.mem_append.1 hp with hp | hp
      · exact spansForAnswer_bounds _ _ p hp
      · exact ih tailSpans htail p hp

theorem findValidSpansCore_empty_answer (normalized : List String) :
    ∀ (ats : List String) (t : String), t ∈ ats →
      pySplitWs (pyStrip STRIPPED_CHARACTERS (pyLower t)) = [] →
      findValidSpansCore normalized ats = none := by
  intro ats
  induction ats with
  | nil => intro t h; simp at h
  | cons hd rest ih =>
    intro t hmem hempty
    rcases List.mem_cons.1 hmem with rfl | hmem
    · simp [findValidSpansCore, hempty]
    · simp only [findValidSpansCore]
      split
      · rfl
      · rw [ih t hmem hempty]; rfl

theorem processArticle_none_of_convert_idx (tokenize : String → List String) (a : Article)
    (h : convert_idx (normalizeQuotes a.passage).toList
          ((tokenize (normalizeQuotes a.passage)).map String.toList) = none) :
    processArticle tokenize a = none := by
  simp only [processArticle, h]

theorem process_file_none_of_article (tokenize : String → List String) :
    ∀ (articles : List Article) (a : Article), a ∈ articles →
      processArticle tokenize a = none →
      process_file tokenize articles = none := by
  intro articles
  induction articles with
  | nil => intro a h; simp at h
  | cons hd rest ih =>
    intro a hmem hnone
    rcases List.mem_cons.1 hmem with rfl | hmem
    · simp only [process_file, hnone]
    · simp only [process_file]
      split
      · rfl
      · rw [ih a hmem hnone]; rfl

theorem combinations_sublist {α : Type} :
    ∀ (xs : List α) (k : Nat) (c : List α), c ∈ combinations k xs →
      c.Sublist xs ∧ c.length = k := by
  intro xs
  induction xs with
  | nil =>
    intro k c h
    cases k with
    | zero => simp only [combinations, List.mem_singleton] at h; subst h; simp
    | succ k => simp [combinations] at h
  | cons x xs ih =>
    intro k c h
    cases k with
    | zero => simp only [combinations, List.mem_singleton] at h; subst h; simp
    | succ k =>
      simp only [combinations, List.mem_append, List.mem_map] at h
      rcases h with ⟨c', hc', rfl⟩ | h
      · obtain ⟨hsub, hlen⟩ := ih k c' hc'
        exact ⟨List.Sublist.cons₂ x hsub, by simp [hlen]⟩
      · obtain ⟨hsub, hlen⟩ := ih (k + 1) c h
        exact ⟨List.Sublist.cons x hsub, hlen⟩

theorem possibleSigns_spec :
    ∀ (k : Nat) (s : List Int), s ∈ possibleSigns k →
      s.length = k ∧ ∀ x ∈ s, x = -1 ∨ x = 1 := by
  intro k
  induction k with
  | zero => intro s h; simp only [possibleSigns, List.mem_singleton] at h; subst h; simp
  | succ k ih =>
    intro s h
    simp only [possibleSigns, List.mem_flatMap, List.mem_map] at h
    obtain ⟨a, ha, rest, hrest, rfl⟩ := h
    obtain ⟨hlen, hall⟩ := ih rest hrest
    refine ⟨by simp [hlen], ?_⟩
    intro x hx
    rcases List.mem_cons.1 hx with rfl | hx
    · simpa using ha
    · exact hall x hx

theorem getD_replicate_zero : ∀ (n i : Nat), (List.replicate n (0 : Nat)).getD i 0 = 0 := by
  intro n
  induction n with
  | zero => intro i; simp
  | succ n ih =>
    intro i
    cases i with
    | zero => simp [List.replicate_succ]
    | succ i => simp only [List.replicate_succ, List.getD_cons_succ]; exact ih i

theorem getD_set_ne {α : Type} (v d : α) :
    ∀ (l : List α) (i j : Nat), i ≠ j → (l.set i v).getD j d = l.getD j d := by
  intro l
  induction l with
  | nil => intro i j _; simp
  | cons a as ih =>
    intro i j hne
    cases i with
    | zero =>
      cases j with
      | zero => exact absurd rfl hne
      | succ j => simp [List.set]
    | succ i =>
      cases j with
      | zero => simp [List.set]
      | succ j => simp only [List.set, List.getD_cons_succ]; exact ih i j (by omega)

theorem signedSum_cons (n : Int) (ns : List Int) (lab : Nat) (ls : List Nat) :
    signedSum (n :: ns) (lab :: ls) = contrib lab n + signedSum ns ls := by
  simp [signedSum]

theorem signedSum_replicate :
    ∀ (numbers : List Int), signedSum numbers (List.replicate numbers.length 0) = 0 := by
  intro numbers
  induction numbers with
  | nil => simp [signedSum]
  | cons n ns ih =>
    simp only [List.length_cons, List.replicate_succ, signedSum_cons, ih, contrib]
    simp

theorem signedSum_set :
    ∀ (numbers : List Int) (labels : List Nat) (i : Nat) (v : Nat),
      labels.length = numbers.length → i < numbers.length →
      signedSum numbers (labels.set i v)
        = signedSum numbers labels + contrib v (numbers.getD i 0)
            - contrib (labels.getD i 0) (numbers.getD i 0) := by
  intro numbers
  induction numbers with
  | nil => intro labels i v _ hi; simp at hi
  | cons n ns ih =>
    intro labels i v hlen hi
    cases labels with
    | nil => simp at hlen
    | cons lab ls =>
      cases i with
      | zero =>
        simp only [List.set, signedSum_cons, List.getD_cons_zero]
        ring
      | succ i =>
        simp only [List.set, signedSum_cons, List.getD_cons_succ]
        rw [ih ls i v (by simpa using hlen) (by simpa using hi)]
        ring

theorem foldl_set_length :
    ∀ (pairs : List (Nat × Int)) (labels : List Nat),
      (pairs.foldl (fun acc q => acc.set q.1 (if q.2 = 1 then 1 else 2)) labels).length
        = labels.length := by
  intro pairs
  induction pairs with
  | nil => intro labels; simp
  | cons q tl ih =>
    intro labels
    simp only [List.foldl_cons]
    rw [ih]
    simp

theorem foldl_set_signedSum (numbers : List Int) :
    ∀ (pairs : List (Nat × Int)) (labels : List Nat),
      labels.length = numbers.length →
      (pairs.map Prod.fst).Nodup →
      (∀ p ∈ pairs, p.1 < numbers.length ∧ labels.getD p.1 0 = 0 ∧ (p.2 = -1 ∨ p.2 = 1)) →
      signedSum numbers (pairs.foldl (fun acc q => acc.set q.1 (if q.2 = 1 then 1 else 2)) labels)
        = signedSum numbers labels
            + ((pairs.map (fun q => q.2 * numbers.getD q.1 0)).sum) := by
  intro pairs
  induction pairs with
  | nil => intro labels _ _ _; simp
  | cons q tl ih =>
    intro labels hlen hnodup hall
    obtain ⟨hqlt, hq0, hqsign⟩ := hall q (List.mem_cons_self q tl)
    rw [List.map_cons] at hnodup
    have hnotin : q.1 ∉ tl.map Prod.fst := (List.nodup_cons.1 hnodup).1
    have hnodup_tl : (tl.map Prod.fst).Nodup := (List.nodup_cons.1 hnodup).2
    have htl : ∀ p ∈ tl, p.1 < numbers.length ∧
        (labels.set q.1 (if q.2 = 1 then 1 else 2)).getD p.1 0 = 0 ∧
        (p.2 = -1 ∨ p.2 = 1) := by
      intro p hp
      obtain ⟨h1, h2, h3⟩ := hall p (List.mem_cons_of_mem q hp)
      refine ⟨h1, ?_, h3⟩
      have hne : q.1 ≠ p.1 := by
        intro hcontra
        exact hnotin (hcontra ▸ List.mem_map_of_mem Prod.fst hp)
      rw [getD_set_ne _ _ labels q.1 p.1 hne]
      exact h2
    simp only [List.foldl_cons, List.map_cons, List.sum_cons]
    rw [ih (labels.set q.1 (if q.2 = 1 then 1 else 2)) (by simpa using hlen) hnodup_tl htl]
    rw [signedSum_set numbers labels q.1 (if q.2 = 1 then 1 else 2) hlen hqlt]
    rw [hq0]
    have hcontrib : contrib (if q.2 = 1 then 1 else 2) (numbers.getD q.1 0)
        = q.2 * numbers.getD q.1 0 := by
      rcases hqsign with h | h
      · rw [h]; simp [contrib]
      · rw [h]; simp [contrib]
    rw [hcontrib]
    have h0 : contrib 0 (numbers.getD q.1 0) = 0 := by simp [contrib]
    rw [h0]
    ring

theorem zip_fst_mul_sum (numbers : List Int) :
    ∀ (combo : List (Nat × Int)) (signs : List Int),
      (∀ p ∈ combo, numbers.getD p.1 0 = p.2) →
      (((combo.map Prod.fst).zip signs).map (fun q => q.2 * numbers.getD q.1 0)).sum
        = addSubEval combo signs := by
  intro combo
  induction combo with
  | nil => intro signs _; simp [addSubEval]
  | cons c tl ih =>
    intro signs hall
    cases signs with
    | nil => simp [addSubEval]
    | cons s srest =>
      simp only [List.map_cons, List.zip_cons_cons, List.sum_cons, addSubEval]
      rw [hall c (List.mem_cons_self c tl)]
      have := ih srest (fun p hp => hall p (List.mem_cons_of_mem c hp))
      simp only [addSubEval] at this
      rw [this]

/-! ### Claim theorems -/

/-- C7: every label vector emitted by `find_valid_add_sub_expressions` has
length `len(numbers)`, and the signed sum of the included numbers (adding
those labeled `1`, subtracting those labeled `2`) equals some value in the
`targets` argument. -/
theorem add_sub_labels_sound :
    ∀ (numbers targets : List Int) (maxNumbers : Nat) (l : List Nat),
      l ∈ find_valid_add_sub_expressions numbers targets maxNumbers →
      l.length = numbers.length ∧ signedSum numbers l ∈ targets := by
  intro numbers targets maxNumbers l hl
  simp only [find_valid_add_sub_expressions, List.mem_flatMap] at hl
  obtain ⟨k, _, combo, hcombo, signs, hsigns, hif⟩ := hl
  by_cases hc : addSubEval combo signs ∈ targets
  · rw [if_pos hc, List.mem_singleton] at hif
    subst hif
    obtain ⟨hsub, hclen⟩ := combinations_sublist numbers.enum k combo hcombo
    obtain ⟨hslen, hsall⟩ := possibleSigns_spec k signs hsigns
    have hmem : ∀ p ∈ combo, p.1 < numbers.length ∧ numbers.getD p.1 0 = p.2 :=
      fun p hp => mem_enum_getD 0 numbers p (hsub.subset hp)
    have hfstnodup : (combo.map Prod.fst).Nodup :=
      (List.nodup_enum_map_fst numbers).sublist (hsub.map Prod.fst)
    have hfstlen : (combo.map Prod.fst).length = k := by simp [hclen]
    have hzipfst : ((combo.map Prod.fst).zip signs).map Prod.fst = combo.map Prod.fst :=
      List.map_fst_zip _ _ (by rw [hfstlen, hslen])
    have hpairs : ∀ p ∈ (combo.map Prod.fst).zip signs,
        p.1 < numbers.length ∧
        (List.replicate numbers.length 0).getD p.1 0 = 0 ∧ (p.2 = -1 ∨ p.2 = 1) := by
      intro p hp
      obtain ⟨hp1, hp2⟩ := List.of_mem_zip hp
      obtain ⟨q, hq, hq1⟩ := List.mem_map.1 hp1
      refine ⟨hq1 ▸ (hmem q hq).1, getD_replicate_zero _ _, hsall p.2 hp2⟩
    constructor
    · simp only [addSubLabels]
      rw [foldl_set_length, List.length_replicate]
    · simp only [addSubLabels]
      rw [foldl_set_signedSum numbers ((combo.map Prod.fst).zip signs)
            (List.replicate numbers.length 0) (by simp) (by rw [hzipfst]; exact hfstnodup)
            hpairs]
      rw [signedSum_replicate]
      rw [zip_fst_mul_sum numbers combo signs (fun p hp => (hmem p hp).2)]
      simpa using hc
  · rw [if_neg hc] at hif
    simp at hif

/-- C7 witness: instantiate the soundness theorem at `numbers = [3, 5]`,
`targets = [8]`, `l = [1, 1]`. -/
theorem add_sub_labels_sound_witness :
    ([1, 1] : List Nat).length = ([3, 5] : List Int).length ∧
      signedSum [3, 5] [1, 1] ∈ ([8] : List Int) :=
  add_sub_labels_sound [3, 5] [8] 2 [1, 1] (by decide)

/-- C9: `find_valid_counts` returns exactly the indices `i` such that
`count_numbers[i]` is a member of `targets`; over `range(max_count)` the
target `100000` yields the empty result and the target `0` yields exactly
`[0]`. -/
theorem find_valid_counts_spec :
    (∀ (cs ts : List Int) (i : Nat),
        i ∈ find_valid_counts cs ts ↔ i < cs.length ∧ cs.getD i 0 ∈ ts) ∧
    find_valid_counts numbersForCount [100000] = [] ∧
    find_valid_counts numbersForCount [0] = [0] := by
  refine ⟨?_, ?_, ?_⟩
  · intro cs ts i
    rw [find_valid_counts, mem_findValidCountsAux]
    constructor
    · rintro ⟨j, hj, rfl, hmem⟩
      exact ⟨by omega, by simpa using hmem⟩
    · rintro ⟨hi, hmem⟩
      exact ⟨i, hi, by omega, hmem⟩
  · simp only [find_valid_counts, numbersForCount, max_count]
    rw [List.range_eq_range', findValidCountsAux_range']
    rw [if_neg (by norm_num)]
  · simp only [find_valid_counts, numbersForCount, max_count]
    rw [List.range_eq_range', findValidCountsAux_range']
    rw [if_pos (by norm_num)]
    rfl

/-- C8: every span returned by `find_valid_spans` satisfies
`startIndex ≤ endIndex < len(passage_tokens)` (start is a `Nat`, so
`0 ≤ startIndex` holds by type), both endpoints being inclusive indices into
the passage token sequence. -/
theorem find_valid_spans_bounds :
    ∀ (passage_tokens answer_texts : List String) (spans : List (Nat × Nat)),
      find_valid_spans passage_tokens answer_texts = some spans →
      ∀ p ∈ spans, p.1 ≤ p.2 ∧ p.2 < passage_tokens.length := by
  intro pt ats spans h p hp
  have hb := findValidSpansCore_bounds
    (pt.map (fun t => pyStrip STRIPPED_CHARACTERS (pyLower t))) ats spans h p hp
  simpa using hb

/-- C8 witness: the span `(1, 2)` produced on `["The", "cat", "sat"]` for
answer text `"cat sat"` is within bounds. -/
theorem find_valid_spans_bounds_witness :
    ((1, 2) : Nat × Nat).1 ≤ ((1, 2) : Nat × Nat).2 ∧
      ((1, 2) : Nat × Nat).2 < (["The", "cat", "sat"] : List String).length :=
  find_valid_spans_bounds ["The", "cat", "sat"] ["cat sat"] [(1, 2)] (by decide)
    (1, 2) (by decide)

/-- C1 counterexample: the answer text `""` normalizes to an empty token list,
and `find_valid_spans` then does NOT return normally: the source raises
`IndexError` at `answer_tokens[0]` (modelled as `none`), contradicting the
claim that no error is raised. -/
theorem find_valid_spans_empty_answer_cex :
    find_valid_spans ["cat"] [""] = none := by decide

/-- C1 amended: an answer text that normalizes to an empty token list makes
`find_valid_spans` raise (IndexError at `answer_tokens[0]`, modelled as
`none`) instead of returning normally with no spans for that text. -/
theorem find_valid_spans_empty_answer_aborts :
    ∀ (passage_tokens answer_texts : List String) (t : String),
      t ∈ answer_texts →
      pySplitWs (pyStrip STRIPPED_CHARACTERS (pyLower t)) = [] →
      find_valid_spans passage_tokens answer_texts = none := by
  intro pt ats t hmem hempty
  exact findValidSpansCore_empty_answer _ ats t hmem hempty

/-- C1 witness: the empty answer text among others still aborts the call. -/
theorem find_valid_spans_empty_answer_aborts_witness :
    find_valid_spans ["cat"] ["", "cat"] = none :=
  find_valid_spans_empty_answer_aborts ["cat"] ["", "cat"] "" (by decide) (by decide)

/-- C2 counterexample: with a tokenizer returning a token absent from the
first passage, `process_file` over two articles aborts globally (`none`), even
though the second article on its own processes fine — the `convert_idx` raise
is not isolated to the failing article. -/
theorem process_file_global_abort_cex :
    process_file (fun _ => ["q"]) [⟨"ab", []⟩, ⟨"q", []⟩] = none ∧
      processArticle (fun _ => ["q"]) ⟨"q", []⟩ = some [] := by decide

/-- C2 amended: a `convert_idx` alignment failure on any article aborts the
whole `process_file` call — there is no per-article isolation, the exception
propagates and no other article's examples are produced. -/
theorem convert_idx_failure_aborts_process_file :
    ∀ (tokenize : String → List String) (articles : List Article) (a : Article),
      a ∈ articles →
      convert_idx (normalizeQuotes a.passage).toList
        ((tokenize (normalizeQuotes a.passage)).map String.toList) = none →
      process_file tokenize articles = none := by
  intro tokenize articles a hmem hfail
  exact process_file_none_of_article tokenize articles a hmem
    (processArticle_none_of_convert_idx tokenize a hfail)

/-- C2 witness: a single-article run with a failing alignment aborts. -/
theorem convert_idx_failure_aborts_process_file_witness :
    process_file (fun _ => ["zz"]) [⟨"cd", []⟩] = none :=
  convert_idx_failure_aborts_process_file (fun _ => ["zz"]) [⟨"cd", []⟩] ⟨"cd", []⟩
    (by decide) (by decide)

/-- C4: `find_valid_add_sub_expressions([3,5], [8], 2)` contains the label
vector `[1,1]` (3+5=8), and `find_valid_add_sub_expressions([3,5], [2], 2)`
contains `[2,1]` (-3+5=2) but not `[1,2]` (3-5=-2 does not hit 2): sign `+1`
maps to label `1` and sign `-1` maps to label `2`. -/
theorem add_sub_sign_label_examples :
    [1, 1] ∈ find_valid_add_sub_expressions [3, 5] [8] 2 ∧
      [2, 1] ∈ find_valid_add_sub_expressions [3, 5] [2] 2 ∧
      [1, 2] ∉ find_valid_add_sub_expressions [3, 5] [2] 2 := by decide

/-- C5: in the span-match loop, a passage token that does not equal the next
expected answer token but lies in `IGNORED_TOKENS` (`"a"`, `"an"`, `"the"`) is
skipped without advancing the answer pointer, and otherwise the attempt is
abandoned; `find_valid_spans(["The","cat","sat"], ["cat sat"])` yields exactly
`[(1,2)]` and `find_valid_spans(["cat","a","sat"], ["cat sat"])` yields
exactly `[(0,2)]`. -/
theorem span_filler_skip_and_examples :
    (∀ (answerTokens : List String) (ai se : Nat) (token : String) (rest : List String),
        ai < answerTokens.length →
        pyStrip STRIPPED_CHARACTERS (answerTokens.getD ai "") ≠ token →
        token ∈ IGNORED_TOKENS →
        matchLoopAux answerTokens ai se (token :: rest)
          = matchLoopAux answerTokens ai (se + 1) rest) ∧
    (∀ (answerTokens : List String) (ai se : Nat) (token : String) (rest : List String),
        ai < answerTokens.length →
        pyStrip STRIPPED_CHARACTERS (answerTokens.getD ai "") ≠ token →
        token ∉ IGNORED_TOKENS →
        matchLoopAux answerTokens ai se (token :: rest) = (ai, se)) ∧
    find_valid_spans ["The", "cat", "sat"] ["cat sat"] = some [(1, 2)] ∧
    find_valid_spans ["cat", "a", "sat"] ["cat sat"] = some [(0, 2)] := by
  refine ⟨?_, ?_, by decide, by decide⟩
  · intro answerTokens ai se token rest hai hne hmem
    simp only [matchLoopAux]
    rw [if_pos hai, if_neg hne, if_pos hmem]
  · intro answerTokens ai se token rest hai hne hmem
    simp only [matchLoopAux]
    rw [if_pos hai, if_neg hne, if_neg hmem]

/-- C5 witness: one skip step on a filler token (pointer unchanged) and one
abandoned attempt on a non-filler mismatch, at concrete inputs. -/
theorem span_filler_skip_and_examples_witness :
    matchLoopAux ["cat", "sat"] 1 0 ["a", "sat"] = matchLoopAux ["cat", "sat"] 1 1 ["sat"] ∧
      matchLoopAux ["cat", "sat"] 1 0 ["dog"] = (1, 0) :=
  ⟨span_filler_skip_and_examples.1 ["cat", "sat"] 1 0 "a" ["sat"]
      (by decide) (by decide) (by decide),
   span_filler_skip_and_examples.2.1 ["cat", "sat"] 1 0 "dog" []
      (by decide) (by decide) (by decide)⟩

/-- C10: `extract_answer_info` classifies an annotation record by fixed
precedence — non-empty `spans` wins over non-empty `number`, which wins over a
date with any truthy component — and when none of the three is present it
returns type `none` with an empty answer-texts list rather than raising. -/
theorem extract_answer_info_precedence :
    ∀ (ann : AnswerAnn),
      (ann.spans ≠ [] → extract_answer_info ann = (some "spans", ann.spans)) ∧
      (ann.spans = [] → ann.number ≠ "" →
        extract_answer_info ann = (some "number", [ann.number])) ∧
      (ann.spans = [] → ann.number = "" →
        (ann.date_month ≠ "" ∨ ann.date_day ≠ "" ∨ ann.date_year ≠ "") →
        (extract_answer_info ann).1 = some "date") ∧
      (ann.spans = [] → ann.number = "" → ann.date_month = "" → ann.date_day = "" →
        ann.date_year = "" → extract_answer_info ann = (none, [])) := by
  intro ann
  refine ⟨?_, ?_, ?_, ?_⟩
  · intro h; simp [extract_answer_info, h]
  · intro h1 h2; simp [extract_answer_info, h1, h2]
  · intro h1 h2 h3
    rcases h3 with h3 | h3 | h3 <;> simp [extract_answer_info, h1, h2, h3]
  · intro h1 h2 h3 h4 h5; simp [extract_answer_info, h1, h2, h3, h4, h5]

/-- C10 witness: the precedence theorem applied at concrete annotations, one
per branch (spans over number over date, and the all-empty case). -/
theorem extract_answer_info_precedence_witness :
    extract_answer_info ⟨["x"], "5", "m", "", ""⟩ = (some "spans", ["x"]) ∧
      extract_answer_info ⟨[], "5", "m", "", ""⟩ = (some "number", ["5"]) ∧
      (extract_answer_info ⟨[], "", "m", "", ""⟩).1 = some "date" ∧
      extract_answer_info ⟨[], "", "", "", ""⟩ = (none, []) :=
  ⟨(extract_answer_info_precedence _).1 (by decide),
   (extract_answer_info_precedence _).2.1 rfl (by decide),
   (extract_answer_info_precedence _).2.2.1 rfl rfl (Or.inl (by decide)),
   (extract_answer_info_precedence _).2.2.2 rfl rfl rfl rfl rfl⟩

/-- C3 counterexample: for a spans-type answer whose text is `"8"`, a target
number IS extracted (`target_numbers = [8]`) yet neither enumerator is
invoked: the computed sign labelings and counts are empty, although the
add/sub enumerator on the passage numbers `[3, 5]` would return `[[1, 1]]`
and the count matcher over `range(max_count)` would return `[8]`.  The gate in
the source is the answer type, not target-number extraction. -/
theorem enumerator_gating_cex :
    extract_answer_info ⟨["8"], "", "", "", ""⟩ = (some "spans", ["8"]) ∧
      targetNumbersOf ["8"] = [8] ∧
      validSignsOf (some "spans") [3, 5] [8] = [] ∧
      find_valid_add_sub_expressions [3, 5] [8] 2 = [[1, 1]] ∧
      validCountsOf (some "spans") [8] = [] ∧
      find_valid_counts numbersForCount [8] = [8] := by
  refine ⟨by decide, by decide, by decide, by decide, by decide, ?_⟩
  simp only [find_valid_counts, numbersForCount, max_count]
  rw [List.range_eq_range', findValidCountsAux_range']
  rw [if_pos (by norm_num)]
  rfl

/-- C3 amended: the enumerators are gated by the answer TYPE, not by whether a
target number was extracted.  When `processQaPair` succeeds, the produced
`counts` equal the count matcher over `range(max_count)` with the target
numbers exactly when the answer type is `"number"` (and are `[]` otherwise),
and the computed-then-discarded sign labelings equal the add/sub enumerator
output exactly when the answer type is `"number"` or `"date"` (and are `[]`
otherwise). -/
theorem answer_type_gates_enumerators :
    ∀ (tokenize : String → List String) (passage_tokens : List String)
      (qa : QaPair) (ex : DropExample),
      processQaPair tokenize passage_tokens qa = some ex →
      (ex.answer_info.counts
        = (if (extract_answer_info qa.answer).1 = some "number" then
             find_valid_counts numbersForCount
               (targetNumbersOf (extract_answer_info qa.answer).2)
           else [])) ∧
      (∀ (nums ts : List Int),
        validSignsOf (extract_answer_info qa.answer).1 nums ts
          = (if (extract_answer_info qa.answer).1 = some "number"
                ∨ (extract_answer_info qa.answer).1 = some "date" then
               find_valid_add_sub_expressions nums ts 2
             else [])) := by
  intro tokenize passage_tokens qa ex h
  constructor
  · simp only [processQaPair] at h
    split at h
    · cases h
    · rw [Option.some.injEq] at h
      subst h
      simp only [validCountsOf]
  · intro nums ts
    simp only [validSignsOf]

/-- C3 witness: the amended theorem applied at a concrete spans-type question
over the passage `["3", "5"]`. -/
theorem answer_type_gates_enumerators_witness :
    (⟨["3", "5"], [['3'], ['5']], ["q"], [['q']], [0, 1],
        ⟨["8"], [], []⟩⟩ : DropExample).answer_info.counts
      = (if (extract_answer_info ⟨["8"], "", "", "", ""⟩).1 = some "number" then
           find_valid_counts numbersForCount
             (targetNumbersOf (extract_answer_info ⟨["8"], "", "", "", ""⟩).2)
         else []) :=
  (answer_type_gates_enumerators (fun s => [s]) ["3", "5"]
      ⟨"q", ⟨["8"], "", "", "", ""⟩⟩
      ⟨["3", "5"], [['3'], ['5']], ["q"], [['q']], [0, 1], ⟨["8"], [], []⟩⟩
      (by decide)).1

theorem asString_toList (s : String) : s.toList.asString = s := rfl

theorem pyReplaceAux_single_id (c0 : Char) (rep : List Char) :
    ∀ (l : List Char) (fuel : Nat), c0 ∉ l → pyReplaceAux [c0] rep fuel l = l := by
  intro l
  induction l with
  | nil => intro fuel _; cases fuel <;> rfl
  | cons c rest ih =>
    intro fuel hmem
    cases fuel with
    | zero => rfl
    | succ f =>
      have hne : c0 ≠ c := fun h => hmem (h ▸ List.mem_cons_self c rest)
      have hpre : ([c0].isPrefixOf (c :: rest)) = false := by
        simp [List.isPrefixOf, hne]
      simp only [pyReplaceAux, hpre, Bool.and_false]
      rw [ih f (fun h => hmem (List.mem_cons_of_mem c h))]
      simp

theorem lookup_eq_none_of_ne {β : Type} (k : String) :
    ∀ (m : List (String × β)), (∀ p ∈ m, k ≠ p.1) → m.lookup k = none := by
  intro m
  induction m with
  | nil => intro _; rfl
  | cons e es ih =>
    intro h
    cases e with
    | mk k1 v1 =>
      have hne : k ≠ k1 := h (k1, v1) (List.mem_cons_self _ es)
      have hbeq : (k == k1) = false := beq_eq_false_iff_ne.2 hne
      simp only [List.lookup, hbeq]
      exact ih (fun p hp => h p (List.mem_cons_of_mem _ hp))

theorem wordMap_keys_ascii :
    ∀ p ∈ WORD_NUMBER_MAP, p.1.toList ≠ [] ∧ ∀ c ∈ p.1.toList, c ∈ asciiLetters := by
  decide

theorem asciiLetters_facts :
    ∀ c ∈ asciiLetters, c.isDigit = false ∧ c ≠ ',' ∧ c ≠ '-' ∧ c ≠ '+' := by
  decide

theorem convert_word_to_number_no_comma (word : String) (h : (',') ∉ word.toList) :
    convert_word_to_number word
      = match WORD_NUMBER_MAP.lookup word with
        | some n => some n
        | none => pyInt word := by
  simp only [convert_word_to_number, pyReplace]
  rw [pyReplaceAux_single_id ',' [] word.toList word.toList.length h, asString_toList]

/-- C6 counterexample: on `"1,000"` the code removes the embedded comma and
parses `1000`, while the algorithm the claim describes ("strips a trailing
comma") leaves `"1,000"` unchanged and returns `none`: the code does not strip
only a trailing comma, it removes every comma. -/
theorem convert_word_to_number_comma_cex :
    convert_word_to_number "1,000" = some 1000 ∧
      convertWordToNumberSpec "1,000" = none := by decide

/-- C6 amended: strict-mode `convert_word_to_number` removes every comma (not
just a trailing one), returns the mapped integer for word-map keys, parses
optionally-signed digit strings as integers, and returns `none` on every other
alphabetic string that is not a word-map key. -/
theorem convert_word_to_number_strict_spec :
    (∀ p ∈ WORD_NUMBER_MAP, convert_word_to_number p.1 = some p.2) ∧
    (∀ (ds : List Char), ds ≠ [] → ds.all Char.isDigit = true →
      convert_word_to_number (String.mk ds) = some ((decimalDigits ds : Int)) ∧
      convert_word_to_number (String.mk ('-' :: ds)) = some (-(decimalDigits ds : Int))) ∧
    (∀ (t : String), (∀ c ∈ t.toList, c ∈ asciiLetters) →
      (∀ p ∈ WORD_NUMBER_MAP, t ≠ p.1) →
      convert_word_to_number t = none) := by
  refine ⟨by decide, ?_, ?_⟩
  · intro ds hne hall
    have hdig : ∀ c ∈ ds, c.isDigit = true := fun c hc => List.all_eq_true.1 hall c hc
    have hcomma : (',') ∉ ds := fun hc => absurd (hdig ',' hc) (by decide)
    have hndig : ∀ p ∈ WORD_NUMBER_MAP, ∀ c ∈ p.1.toList, c.isDigit = false :=
      fun p hp c hc => (asciiLetters_facts c ((wordMap_keys_ascii p hp).2 c hc)).1
    constructor
    · rw [convert_word_to_number_no_comma (String.mk ds) hcomma]
      have hlook : WORD_NUMBER_MAP.lookup (String.mk ds) = none := by
        apply lookup_eq_none_of_ne
        intro p hp heq
        have hdata : p.1.toList = ds := by rw [← heq]; exact rfl
        cases ds with
        | nil => exact hne rfl
        | cons c cr =>
          have hc1 : c ∈ p.1.toList := by rw [hdata]; exact List.mem_cons_self c cr
          have hfalse := hndig p hp c hc1
          have htrue := hdig c (List.mem_cons_self c cr)
          rw [hfalse] at htrue
          exact absurd htrue (by decide)
      rw [hlook]
      show pyIntAux ds = some ((decimalDigits ds : Int))
      cases ds with
      | nil => exact absurd rfl hne
      | cons c cr =>
        have hcd : c.isDigit = true := hdig c (List.mem_cons_self c cr)
        have hcm : c ≠ '-' := fun h => absurd (h ▸ hcd) (by decide)
        have hcp : c ≠ '+' := fun h => absurd (h ▸ hcd) (by decide)
        simp only [pyIntAux, if_neg hcm, if_neg hcp, if_pos hall]
    · have hcomma2 : (',') ∉ ('-' :: ds) := by
        intro hc
        rcases List.mem_cons.1 hc with h | h
        · exact absurd h (by decide)
        · exact hcomma h
      rw [convert_word_to_number_no_comma (String.mk ('-' :: ds)) hcomma2]
      have hlook : WORD_NUMBER_MAP.lookup (String.mk ('-' :: ds)) = none := by
        apply lookup_eq_none_of_ne
        intro p hp heq
        have hdata : p.1.toList = '-' :: ds := by rw [← heq]; exact rfl
        have hmem : ('-') ∈ p.1.toList := by rw [hdata]; exact List.mem_cons_self _ ds
        have hca := (wordMap_keys_ascii p hp).2 '-' hmem
        exact absurd ((asciiLetters_facts '-' hca).2.2.1) (by simp)
      rw [hlook]
      show pyIntAux ('-' :: ds) = some (-(decimalDigits ds : Int))
      simp only [pyIntAux]
      rw [if_pos trivial, if_pos (And.intro hne hall)]
  · intro t hascii hnotkey
    have hcomma : (',') ∉ t.toList := fun hc =>
      absurd ((asciiLetters_facts ',' (hascii ',' hc)).2.1) (by simp)
    rw [convert_word_to_number_no_comma t hcomma]
    have hlook : WORD_NUMBER_MAP.lookup t = none :=
      lookup_eq_none_of_ne t WORD_NUMBER_MAP hnotkey
    rw [hlook]
    show pyIntAux t.toList = none
    cases ht : t.toList with
    | nil => rfl
    | cons c cr =>
      have hca := hascii c (by rw [ht]; exact List.mem_cons_self c cr)
      obtain ⟨hnd, _, hcm, hcp⟩ := asciiLetters_facts c hca
      have hallf : ((c :: cr).all Char.isDigit) = false := by
        simp [List.all_cons, hnd]
      simp only [pyIntAux, if_neg hcm, if_neg hcp, hallf]
      simp

/-- C6 witness: the amended strict-mode contract applied at the word-map key
`"zero"`, the digit string `"42"` and its negation, and the alphabetic non-key
`"cat"`. -/
theorem convert_word_to_number_strict_spec_witness :
    convert_word_to_number "zero" = some 0 ∧
      convert_word_to_number (String.mk ['4', '2'])
        = some ((decimalDigits ['4', '2'] : Int)) ∧
      convert_word_to_number (String.mk ('-' :: ['4', '2']))
        = some (-(decimalDigits ['4', '2'] : Int)) ∧
      convert_word_to_number "cat" = none :=
  ⟨convert_word_to_number_strict_spec.1 ("zero", 0) (by decide),
   (convert_word_to_number_strict_spec.2.1 ['4', '2'] (by decide) (by decide)).1,
   (convert_word_to_number_strict_spec.2.1 ['4', '2'] (by decide) (by decide)).2,
   convert_word_to_number_strict_spec.2.2 "cat" (by decide) (by decide)⟩
